import Mathlib

/-!
Verification of the agent-to-agent communication layer of the
`system-trading` repository.

The development shallowly embeds the relevant Python code of
`shared/a2a_communication.py` and `shared/central_router.py`:

* Python `dict`s are modelled as association lists (`List (k × v)`).
  All dictionary operations below preserve key uniqueness, matching the
  fact that a Python `dict` never holds a key twice; reads return the
  first (hence only) binding of a key.
* `datetime` values are modelled as whole seconds (`Nat`); `timedelta`
  attributes are translated accordingly (`timedelta.seconds` is the
  elapsed whole seconds modulo 86400).
* floats are modelled as `ℚ`.
* asynchronous handlers are modelled as explicit state-passing steps on
  the mutated state; effects outside the embedded state (NATS publishes,
  `random.choice`) are oracles passed as function arguments.
-/

/-- First binding of key `k` in an association list (Python `d[k]` /
`d.get(k)`: a `dict` never holds duplicate keys, so the first binding is
the only one). -/
def getVal {α β : Type} [DecidableEq α] (l : List (α × β)) (k : α) : Option β :=
  match l with
  | [] => none
  | p :: ps => if p.1 = k then some p.2 else getVal ps k

/-- Python `d[k] = v`: overwrite the binding in place if the key exists,
otherwise append a new binding at the end (dict insertion order). -/
def dictInsert {α β : Type} [DecidableEq α] (k : α) (v : β) :
    List (α × β) → List (α × β)
  | [] => [(k, v)]
  | p :: ps => if p.1 = k then (k, v) :: ps else p :: dictInsert k v ps

/-- Apply `f` to the value stored under `k` (models Python code that
reads `d[k]`, mutates the object, leaving its dict slot in place). -/
def dictModify {α β : Type} [DecidableEq α] (k : α) (f : β → β) :
    List (α × β) → List (α × β)
  | [] => []
  | p :: ps => if p.1 = k then (p.1, f p.2) :: ps else p :: dictModify k f ps

/-- Python `del d[k]` / `d.pop(k)`: drop the (first, hence only) binding
of `k`. -/
def dictRemove {α β : Type} [DecidableEq α] :
    List (α × β) → α → List (α × β)
  | [], _ => []
  | p :: ps, k => if p.1 = k then ps else p :: dictRemove ps k

namespace A2A

/-! ### `CollaborationOrchestrator._analyze_consensus`
(`shared/a2a_communication.py`)

A consensus response dict maps a sender id to its content dict; the only
content field the analysis reads is `"decision"`, so a response is
modelled as `String × Option String` (sender id, optional decision). -/

/-- Result record of `_analyze_consensus` (and the consensus fields of
the dict returned by `_collect_consensus_responses`). -/
structure ConsensusResult where
  consensus_achieved : Bool
  agreement_score : ℚ
  final_decision : Option String
  dissenting_agents : List String
deriving DecidableEq

/-- One step of the `vote_counts` accumulation:
`vote_counts[decision] = vote_counts.get(decision, 0) + 1`. -/
def bumpVote (counts : List (String × Nat)) (d : String) : List (String × Nat) :=
  match getVal counts d with
  | some c => dictInsert d (c + 1) counts
  | none => dictInsert d 1 counts

/-- The `vote_counts` dict built by the `for decision in decisions` loop. -/
def voteCounts (decisions : List String) : List (String × Nat) :=
  decisions.foldl bumpVote []

/-- Python `max(items, key=lambda x: x[1])`: first item whose count is
maximal (later items replace the current best only when strictly
greater). `none` on an empty list (where Python raises `ValueError`). -/
def maxByCount : List (String × Nat) → Option (String × Nat)
  | [] => none
  | x :: xs => some (xs.foldl (fun b y => if y.2 > b.2 then y else b) x)

/-- `CollaborationOrchestrator._analyze_consensus`. -/
def analyzeConsensus (responses : List (String × Option String)) : ConsensusResult :=
  if responses.isEmpty then
    { consensus_achieved := false, agreement_score := 0
      final_decision := none, dissenting_agents := [] }
  else
    let decisions := responses.filterMap (fun r => r.2)
    if decisions.isEmpty then
      { consensus_achieved := false, agreement_score := 0
        final_decision := none, dissenting_agents := responses.map (fun r => r.1) }
    else
      match maxByCount (voteCounts decisions) with
      | none =>
        -- unreachable: `voteCounts` of a non-empty list is non-empty
        { consensus_achieved := false, agreement_score := 0
          final_decision := none, dissenting_agents := [] }
      | some md =>
        let score : ℚ := (md.2 : ℚ) / (decisions.length : ℚ)
        { consensus_achieved := decide ((0.6 : ℚ) ≤ score)
          agreement_score := score
          final_decision := some md.1
          dissenting_agents :=
            (responses.filter (fun r => r.2 ≠ some md.1)).map (fun r => r.1) }

/-! ### `CollaborationOrchestrator._aggregate_peer_reviews`

A review response content is modelled by its `"scores"` sub-dict
(criterion name to score); a response without a `"scores"` key is the
empty list, matching `review.get("scores", {})`. The `recommendations`
and `consensus_level` fields are not covered by any claim and are
omitted from the result record. -/

/-- Result record of `_aggregate_peer_reviews` (the fields the claims
are about). -/
structure PeerReviewResult where
  overall_score : ℚ
  criteria_scores : List (String × ℚ)
deriving DecidableEq

/-- Python `review.get("scores", {}).get(criterion, 0.0)`. -/
def getScore (scores : List (String × ℚ)) (criterion : String) : ℚ :=
  (getVal scores criterion).getD 0

/-- Distinct keys in first-occurrence order: the key sequence a Python
dict ends up with after assigning `d[c] = ...` for `c` in the list. -/
def distinctKeys : List String → List String
  | [] => []
  | c :: cs => c :: (distinctKeys cs).filter (fun x => x ≠ c)

/-- `CollaborationOrchestrator._aggregate_peer_reviews`: every review
contributes `scores.get(criterion, 0.0)` to every criterion, so a
review missing a criterion contributes `0.0` and still counts in the
denominator (`len(scores) = len(reviews)`). -/
def aggregatePeerReviews (reviews : List (String × List (String × ℚ)))
    (criteria : List String) : PeerReviewResult :=
  if reviews.isEmpty then { overall_score := 0, criteria_scores := [] }
  else
    let cs := (distinctKeys criteria).map (fun c =>
      (c, (reviews.map (fun r => getScore r.2 c)).sum / (reviews.length : ℚ)))
    { overall_score :=
        if cs.isEmpty then 0 else (cs.map (fun p => p.2)).sum / (cs.length : ℚ)
      criteria_scores := cs }

/-- Aggregation following the claim text, for comparison with the code:
a criterion's score averages only over the reviewers that supplied a
score for it (a missing criterion contributes to neither numerator nor
denominator). -/
def aggregatePeerReviewsSpec (reviews : List (String × List (String × ℚ)))
    (criteria : List String) : PeerReviewResult :=
  if reviews.isEmpty then { overall_score := 0, criteria_scores := [] }
  else
    let cs := (distinctKeys criteria).map (fun c =>
      let supplied := reviews.filterMap (fun r => getVal r.2 c)
      (c, supplied.sum / (supplied.length : ℚ)))
    { overall_score :=
        if cs.isEmpty then 0 else (cs.map (fun p => p.2)).sum / (cs.length : ℚ)
      criteria_scores := cs }

/-! ### `AgentRegistry.get_best_agent_for_capability` -/

/-- Agent profile fields read by `get_best_agent_for_capability`. -/
structure AgentProfile where
  agent_id : String
  status : String
  service_level : ℚ
  reputation_score : ℚ
  load_factor : ℚ
deriving DecidableEq

/-- The inner `score_agent` closure. -/
def scoreAgent (a : AgentProfile) : ℚ :=
  if a.status ≠ "active" then 0
  else
    let availability_score := max 0 (1 - a.load_factor)
    a.reputation_score * 0.4 + a.service_level * 0.3 + availability_score * 0.3

/-- `AgentRegistry.get_best_agent_for_capability`, applied to the
candidate list returned by `find_agents_by_capability`: `None` iff the
list is empty; otherwise Python `max(candidates, key=score_agent)`,
the first candidate with maximal score. -/
def getBestAgentForCapability (candidates : List AgentProfile) : Option AgentProfile :=
  match candidates with
  | [] => none
  | x :: xs =>
    some (xs.foldl (fun b a => if scoreAgent a > scoreAgent b then a else b) x)

/-! ### `MessageRouter` pending-response tracking

A pending slot maps a message id to its `asyncio.Future`, modelled by
its `done()` flag. Fields of `AgentMessage` not read by the tracking
code are omitted. -/

/-- The `AgentMessage` fields read by response tracking. -/
structure TrackedMessage where
  message_id : String
  requires_response : Bool
  response_timeout : Option Nat
deriving DecidableEq

/-- `MessageRouter._track_pending_response`: a slot is created only
when `message.response_timeout` is truthy (`None` and `0` are falsy). -/
def trackPendingResponse (msg : TrackedMessage)
    (pending : List (String × Bool)) : List (String × Bool) :=
  match msg.response_timeout with
  | some n => if n ≠ 0 then dictInsert msg.message_id false pending else pending
  | none => pending

/-- The response-tracking step of `MessageRouter.route_message`:
`if message.requires_response: self._track_pending_response(message)`. -/
def routeTrack (msg : TrackedMessage)
    (pending : List (String × Bool)) : List (String × Bool) :=
  if msg.requires_response then trackPendingResponse msg pending else pending

/-- `MessageRouter._handle_response_timeout` after its sleep: pop the
slot if the id is still tracked (the popped future is then failed with
`TimeoutError` unless already done); no effect, and no error, when the
id is absent. -/
def handleResponseTimeout (message_id : String)
    (pending : List (String × Bool)) : List (String × Bool) :=
  if (getVal pending message_id).isSome then dictRemove pending message_id
  else pending

end A2A

namespace Router

/-! ### `shared/central_router.py` -/

/-- `CircuitBreaker` (the `state` field holds the same strings as the
Python code). Timestamps are whole seconds. -/
structure CircuitBreaker where
  threshold : Nat
  timeout : Nat
  failure_count : Nat
  last_failure : Option Nat
  state : String
deriving DecidableEq

/-- `CircuitBreaker.__init__` (defaults `threshold=5`, `timeout=60`). -/
def mkCircuitBreaker (threshold timeout : Nat) : CircuitBreaker :=
  { threshold := threshold, timeout := timeout
    failure_count := 0, last_failure := none, state := "closed" }

/-- `CircuitBreaker.record_success`. -/
def recordSuccess (cb : CircuitBreaker) : CircuitBreaker :=
  { cb with failure_count := 0, state := "closed" }

/-- `CircuitBreaker.record_failure` at time `now`. -/
def recordFailure (now : Nat) (cb : CircuitBreaker) : CircuitBreaker :=
  let fc := cb.failure_count + 1
  { cb with
    failure_count := fc
    last_failure := some now
    state := if cb.threshold ≤ fc then "open" else cb.state }

/-- `CircuitBreaker.can_execute` at time `now`, returning the reply and
the possibly updated breaker. `(datetime.now() - last_failure).seconds`
is the elapsed whole seconds modulo 86400 (the `timedelta.seconds`
attribute excludes full days). -/
def canExecute (now : Nat) (cb : CircuitBreaker) : Bool × CircuitBreaker :=
  if cb.state = "closed" then (true, cb)
  else if cb.state = "open" then
    match cb.last_failure with
    | some t =>
      if (now - t) % 86400 > cb.timeout then (true, { cb with state := "half-open" })
      else (false, cb)
    | none => (false, cb)
  else (true, cb)

/-- `AgentStatus` enum. -/
inductive AgentStatus where
  | healthy
  | degraded
  | unhealthy
  | offline
deriving DecidableEq

/-- `AgentInstance` (fields not read by the embedded operations are
omitted). -/
structure AgentInstance where
  agent_id : String
  agent_type : String
  capabilities : List String
  status : AgentStatus
  last_heartbeat : Option Nat
  load_factor : ℚ
  message_count : Nat
deriving DecidableEq

/-- The mutable state of a `CentralRouter` (registry, indices, breakers,
round-robin cursors and the stats counters the embedded code touches).
`routing_counters` is keyed by the candidate list itself, modelling the
injective reading of the Python key `f"rr_{hash(tuple(agents))}"`. -/
structure RouterState where
  agents : List (String × AgentInstance)
  agent_types : List (String × List String)
  capabilities_index : List (String × List String)
  circuit_breakers : List (String × CircuitBreaker)
  routing_counters : List (List String × Nat)
  messages_routed : Nat
  routing_errors : Nat
  agents_registered : Nat
deriving DecidableEq

/-- A `CentralRouter` before any registration. -/
def emptyRouterState : RouterState :=
  { agents := [], agent_types := [], capabilities_index := []
    circuit_breakers := [], routing_counters := []
    messages_routed := 0, routing_errors := 0, agents_registered := 0 }

/-- Python `defaultdict(list)` read: the stored list, or `[]`. -/
def getListD {α : Type} [DecidableEq α] (l : List (α × List String)) (k : α) :
    List String :=
  (getVal l k).getD []

/-- Python `defaultdict(list)[k].append(x)`. -/
def dlistAppend {α : Type} [DecidableEq α] (k : α) (x : String)
    (l : List (α × List String)) : List (α × List String) :=
  dictInsert k (getListD l k ++ [x]) l

/-- `CentralRouter.register_agent` (its registry mutations; the NATS
broadcast of the update is external). Note the indices are plain list
appends, while the profile itself is a dict overwrite. -/
def registerAgent (st : RouterState) (a : AgentInstance) : RouterState :=
  { st with
    agents := dictInsert a.agent_id a st.agents
    agent_types := dlistAppend a.agent_type a.agent_id st.agent_types
    capabilities_index :=
      a.capabilities.foldl (fun idx c => dlistAppend c a.agent_id idx)
        st.capabilities_index
    circuit_breakers := dictInsert a.agent_id (mkCircuitBreaker 5 60) st.circuit_breakers
    agents_registered := st.agents_registered + 1 }

/-- `CentralRouter._unregister_agent`. `list.remove` removes the first
occurrence and raises `ValueError` when absent: that error case is
`none`. The capability loop is guarded by an `in` check, so it never
raises. (The `defaultdict` auto-creation of an empty entry on a missed
lookup is not modelled; no claim reaches a state where it occurs.) -/
def unregisterAgent (st : RouterState) (agent_id : String) : Option RouterState :=
  match getVal st.agents agent_id with
  | none => some st
  | some a =>
    if agent_id ∈ getListD st.agent_types a.agent_type then
      some { st with
        agent_types := dictModify a.agent_type (fun l => l.erase agent_id) st.agent_types
        capabilities_index :=
          a.capabilities.foldl
            (fun idx c =>
              if agent_id ∈ getListD idx c then
                dictModify c (fun l => l.erase agent_id) idx
              else idx)
            st.capabilities_index
        circuit_breakers := dictRemove st.circuit_breakers agent_id
        agents := dictRemove st.agents agent_id }
    else none

/-- The status update `_health_monitor_task` applies to one agent at
time `now`: nothing when there is no heartbeat; `offline` beyond 60
elapsed seconds, `degraded` beyond 30, unchanged otherwise. -/
def healthUpdateAgent (now : Nat) (a : AgentInstance) : AgentInstance :=
  match a.last_heartbeat with
  | none => a
  | some t =>
    if now - t > 60 then { a with status := AgentStatus.offline }
    else if now - t > 30 then { a with status := AgentStatus.degraded }
    else a

/-- One sweep of `CentralRouter._health_monitor_task` at time `now`. -/
def healthMonitorStep (now : Nat) (st : RouterState) : RouterState :=
  { st with agents := st.agents.map (fun p => (p.1, healthUpdateAgent now p.2)) }

/-- The `offline_agents` selection of `CentralRouter._cleanup_task`:
offline agents whose last heartbeat lies more than 5 minutes (300
seconds) in the past. -/
def isStaleOffline (now : Nat) (a : AgentInstance) : Bool :=
  decide (a.status = AgentStatus.offline) &&
    (match a.last_heartbeat with
     | some t => decide (now - t > 300)
     | none => false)

/-- The list comprehension collecting `offline_agents` in
`_cleanup_task`. -/
def offlineAgents (now : Nat) (st : RouterState) : List String :=
  (st.agents.filter (fun p => isStaleOffline now p.2)).map (fun p => p.1)

/-- One sweep of `CentralRouter._cleanup_task` at time `now`:
unregister every stale offline agent. -/
def cleanupStep (now : Nat) (st : RouterState) : Option RouterState :=
  (offlineAgents now st).foldlM (fun s aid => unregisterAgent s aid) st

/-- `RoutingStrategy` enum. -/
inductive RoutingStrategy where
  | round_robin
  | least_loaded
  | random
  | sticky_session
  | priority_based
deriving DecidableEq

/-- The `load_factor` Python reads as `self.agents[a].load_factor`
inside `least_loaded` selection (the id is always registered when this
runs). -/
def loadOf (agents : List (String × AgentInstance)) (aid : String) : ℚ :=
  ((getVal agents aid).map (fun a => a.load_factor)).getD 0

/-- `CentralRouter._select_agent`. `pick` is the `random.choice` oracle
(reduced modulo the length, so any oracle yields a valid index);
`none` models the exception raised on an empty candidate list (modulo
by zero for round robin, `IndexError` for `random.choice`, `ValueError`
for `min`). Strategies without their own branch fall through to round
robin. -/
def selectAgent (pick : List String → Nat) (agents : List String)
    (strategy : RoutingStrategy) (counters : List (List String × Nat))
    (agentMap : List (String × AgentInstance)) :
    Option (String × List (List String × Nat)) :=
  match strategy with
  | RoutingStrategy.least_loaded =>
    match agents with
    | [] => none
    | x :: xs =>
      some (xs.foldl (fun b y => if loadOf agentMap y < loadOf agentMap b then y else b) x,
        counters)
  | RoutingStrategy.random =>
    match agents with
    | [] => none
    | _ => some (agents.getD (pick agents % agents.length) "", counters)
  | _ =>
    match agents with
    | [] => none
    | _ =>
      let c := ((getVal counters agents).getD 0 + 1) % agents.length
      some (agents.getD c "", dictInsert agents c counters)

/-- `n` consecutive round-robin selections over a fixed candidate list
(no intervening topology change; no other selection shares the
cursor). -/
def rrSelections (agents : List String) (counters : List (List String × Nat)) :
    Nat → List String × List (List String × Nat)
  | 0 => ([], counters)
  | n + 1 =>
    match selectAgent (fun _ => 0) agents RoutingStrategy.round_robin counters [] with
    | none => ([], counters)
    | some (a, cs) =>
      let rest := rrSelections agents cs n
      (a :: rest.1, rest.2)

/-- The `destination_agents` determination at the top of
`CentralRouter.route_message`. -/
def destinationAgents (requiredCapability destinationType destinationId : Option String)
    (st : RouterState) : List String :=
  match destinationId with
  | some i => if (getVal st.agents i).isSome then [i] else []
  | none =>
    match destinationType with
    | some t => getListD st.agent_types t
    | none =>
      match requiredCapability with
      | some c => getListD st.capabilities_index c
      | none => []

/-- One step of the `healthy_agents` comprehension: look up the agent
(`KeyError` is `none`), short-circuit on a non-healthy status, else ask
its circuit breaker (which may move to half-open). -/
def checkHealthy (now : Nat) (agents : List (String × AgentInstance))
    (aid : String) (bks : List (String × CircuitBreaker)) :
    Option (Bool × List (String × CircuitBreaker)) :=
  match getVal agents aid with
  | none => none
  | some a =>
    if a.status = AgentStatus.healthy then
      match getVal bks aid with
      | none => none
      | some cb =>
        let r := canExecute now cb
        some (r.1, dictInsert aid r.2 bks)
    else some (false, bks)

/-- The `healthy_agents` comprehension of `route_message`, threading the
breaker mutations; `(none, _)` models a `KeyError` escaping the
comprehension (with the breakers mutated so far). -/
def filterHealthy (now : Nat) (agents : List (String × AgentInstance)) :
    List String → List (String × CircuitBreaker) →
    Option (List String) × List (String × CircuitBreaker)
  | [], bks => (some [], bks)
  | d :: ds, bks =>
    match checkHealthy now agents d bks with
    | none => (none, bks)
    | some (ok, bks1) =>
      match filterHealthy now agents ds bks1 with
      | (none, bks2) => (none, bks2)
      | (some hs, bks2) => (some (if ok then d :: hs else hs), bks2)

/-- The agent-side effect of a successful `_deliver_message`:
`message_count += 1` and `load_factor = message_count / 100.0`. -/
def deliveredUpdate (aid : String) (agents : List (String × AgentInstance)) :
    List (String × AgentInstance) :=
  dictModify aid
    (fun a => { a with
                message_count := a.message_count + 1
                load_factor := ((a.message_count + 1 : Nat) : ℚ) / 100 })
    agents

/-- `CentralRouter.route_message` at time `now`. `deliver` is the
delivery oracle: whether `_deliver_message` to the given id returns
`True` (the NATS publish is external; a raised send error makes it
return `False`). `pick` is the `random.choice` oracle. The final
exception handler of the Python function is reached only through the
selection errors modelled as `none` in `selectAgent`; it returns
`False` after one more `routing_errors` increment. -/
def routeMessage (pick : List String → Nat) (deliver : String → Bool) (now : Nat)
    (requiredCapability destinationType destinationId : Option String)
    (strategy : RoutingStrategy) (st : RouterState) : Bool × RouterState :=
  let dests := destinationAgents requiredCapability destinationType destinationId st
  if dests.isEmpty then (false, st)
  else
    match filterHealthy now st.agents dests st.circuit_breakers with
    | (none, bks) =>
      (false, { st with circuit_breakers := bks, routing_errors := st.routing_errors + 1 })
    | (some healthy, bks1) =>
      if healthy.isEmpty then (false, { st with circuit_breakers := bks1 })
      else
        match selectAgent pick healthy strategy st.routing_counters st.agents with
        | none =>
          (false, { st with
                    circuit_breakers := bks1
                    routing_errors := st.routing_errors + 1 })
        | some (selected, counters1) =>
          if deliver selected then
            (true, { st with
              circuit_breakers := dictModify selected recordSuccess bks1
              routing_counters := counters1
              agents := deliveredUpdate selected st.agents
              messages_routed := st.messages_routed + 1 })
          else
            let bks2 := dictModify selected (recordFailure now) bks1
            if healthy.length > 1 then
              let alts := healthy.filter (fun x => x ≠ selected)
              match selectAgent pick alts strategy counters1 st.agents with
              | none =>
                (false, { st with
                          circuit_breakers := bks2
                          routing_counters := counters1
                          routing_errors := st.routing_errors + 2 })
              | some (alt, counters2) =>
                if deliver alt then
                  (true, { st with
                           circuit_breakers := bks2
                           routing_counters := counters2
                           agents := deliveredUpdate alt st.agents
                           routing_errors := st.routing_errors + 1 })
                else
                  (false, { st with
                            circuit_breakers := bks2
                            routing_counters := counters2
                            routing_errors := st.routing_errors + 1 })
            else
              (false, { st with
                        circuit_breakers := bks2
                        routing_counters := counters1
                        routing_errors := st.routing_errors + 1 })

end Router

/-! ## General association-list lemmas -/

theorem getVal_dictInsert_self {α β : Type} [DecidableEq α] (k : α) (v : β)
    (l : List (α × β)) : getVal (dictInsert k v l) k = some v := by
  induction l with
  | nil => simp [dictInsert, getVal]
  | cons p ps ih =>
    by_cases h : p.1 = k
    · simp [dictInsert, h, getVal]
    · simp [dictInsert, h, getVal, ih]

theorem getVal_dictInsert_ne {α β : Type} [DecidableEq α] {k k2 : α} (v : β)
    (l : List (α × β)) (h : k2 ≠ k) :
    getVal (dictInsert k v l) k2 = getVal l k2 := by
  induction l with
  | nil => simp [dictInsert, getVal, Ne.symm h]
  | cons p ps ih =>
    by_cases hp : p.1 = k
    · simp [dictInsert, hp, getVal, Ne.symm h]
    · simp only [dictInsert, if_neg hp, getVal]
      by_cases hp2 : p.1 = k2 <;> simp [hp2, ih]

theorem getVal_mem {α β : Type} [DecidableEq α] {k : α} {v : β}
    {l : List (α × β)} (h : getVal l k = some v) : (k, v) ∈ l := by
  induction l with
  | nil => simp [getVal] at h
  | cons p ps ih =>
    by_cases hp : p.1 = k
    · simp only [getVal, if_pos hp] at h
      have hv := Option.some.inj h
      have hpk : p = (k, v) := by
        cases p
        simp only [Prod.mk.injEq]
        simp only at hp hv
        exact ⟨hp, hv⟩
      rw [hpk]
      exact List.mem_cons_self _ _
    · simp only [getVal, if_neg hp] at h
      exact List.mem_cons_of_mem _ (ih h)

theorem getVal_eq_none_iff {α β : Type} [DecidableEq α] {k : α}
    {l : List (α × β)} : getVal l k = none ↔ ∀ p ∈ l, p.1 ≠ k := by
  induction l with
  | nil => simp [getVal]
  | cons p ps ih =>
    by_cases hp : p.1 = k <;> simp [getVal, hp, ih]

theorem keys_dictInsert {α β : Type} [DecidableEq α] (k : α) (v : β)
    (l : List (α × β)) :
    (dictInsert k v l).map Prod.fst =
      if (getVal l k).isSome then l.map Prod.fst else l.map Prod.fst ++ [k] := by
  induction l with
  | nil => simp [dictInsert, getVal]
  | cons p ps ih =>
    by_cases hp : p.1 = k
    · simp [dictInsert, getVal, hp]
    · simp only [dictInsert, if_neg hp, getVal, List.map_cons, ih]
      by_cases hs : (getVal ps k).isSome <;> simp [hs]

theorem nodupKeys_dictInsert {α β : Type} [DecidableEq α] (k : α) (v : β)
    {l : List (α × β)} (h : (l.map Prod.fst).Nodup) :
    ((dictInsert k v l).map Prod.fst).Nodup := by
  rw [keys_dictInsert]
  cases hgv : getVal l k with
  | some v2 => simp only [hgv, Option.isSome_some, if_true]; exact h
  | none =>
    have hk : k ∉ l.map Prod.fst := by
      intro hmem
      obtain ⟨p, hp, hpk⟩ := List.mem_map.mp hmem
      exact (getVal_eq_none_iff.mp hgv p hp) hpk
    rw [if_neg (by simp [hgv])]
    rw [List.nodup_append]
    refine ⟨h, List.nodup_singleton _, ?_⟩
    intro x hx hx2
    simp only [List.mem_singleton] at hx2
    subst hx2
    exact hk hx

theorem getVal_of_mem_nodupKeys {α β : Type} [DecidableEq α] {k : α} {v : β}
    {l : List (α × β)} (hnd : (l.map Prod.fst).Nodup) (h : (k, v) ∈ l) :
    getVal l k = some v := by
  induction l with
  | nil => simp at h
  | cons p ps ih =>
    simp only [List.map_cons, List.nodup_cons] at hnd
    rcases List.mem_cons.mp h with h1 | h1
    · rw [← h1]
      simp [getVal]
    · have hk : p.1 ≠ k := by
        intro he
        apply hnd.1
        rw [he]
        exact List.mem_map.mpr ⟨(k, v), h1, rfl⟩
      simp only [getVal, if_neg hk]
      exact ih hnd.2 h1

theorem getVal_dictModify_self {α β : Type} [DecidableEq α] {k : α} {v : β}
    (f : β → β) {l : List (α × β)} (h : getVal l k = some v) :
    getVal (dictModify k f l) k = some (f v) := by
  induction l with
  | nil => simp [getVal] at h
  | cons p ps ih =>
    by_cases hp : p.1 = k
    · simp only [getVal, if_pos hp] at h
      have hv := Option.some.inj h
      simp [dictModify, hp, getVal, hv]
    · simp only [getVal, if_neg hp] at h
      simp [dictModify, hp, getVal, ih h]

theorem getVal_dictModify_ne {α β : Type} [DecidableEq α] {k k2 : α}
    (f : β → β) (l : List (α × β)) (h : k2 ≠ k) :
    getVal (dictModify k f l) k2 = getVal l k2 := by
  induction l with
  | nil => simp [dictModify]
  | cons p ps ih =>
    by_cases hp : p.1 = k
    · simp [dictModify, hp, getVal, Ne.symm h]
    · simp only [dictModify, if_neg hp, getVal]
      by_cases hp2 : p.1 = k2 <;> simp [hp2, ih]

theorem dictInsert_of_absent {α β : Type} [DecidableEq α] {k : α} (v : β)
    {l : List (α × β)} (h : getVal l k = none) :
    dictInsert k v l = l ++ [(k, v)] := by
  induction l with
  | nil => simp [dictInsert]
  | cons p ps ih =>
    by_cases hp : p.1 = k
    · simp [getVal, hp] at h
    · simp only [getVal, if_neg hp] at h
      simp [dictInsert, hp, ih h]

theorem dictRemove_append_of_absent {α β : Type} [DecidableEq α] {k : α} (v : β)
    {l : List (α × β)} (h : getVal l k = none) :
    dictRemove (l ++ [(k, v)]) k = l := by
  induction l with
  | nil => simp [dictRemove]
  | cons p ps ih =>
    by_cases hp : p.1 = k
    · simp [getVal, hp] at h
    · simp only [getVal, if_neg hp] at h
      simp [dictRemove, hp, ih h]

namespace A2A

/-! ## Lemmas on the consensus vote count -/

theorem voteCounts_append (ds : List String) (d : String) :
    voteCounts (ds ++ [d]) = bumpVote (voteCounts ds) d := by
  simp [voteCounts, List.foldl_append]

theorem getVal_bumpVote_self (counts : List (String × Nat)) (d : String) :
    getVal (bumpVote counts d) d = some ((getVal counts d).getD 0 + 1) := by
  cases h : getVal counts d <;> simp [bumpVote, h, getVal_dictInsert_self]

theorem getVal_bumpVote_ne (counts : List (String × Nat)) {d d2 : String}
    (h : d2 ≠ d) : getVal (bumpVote counts d) d2 = getVal counts d2 := by
  cases hh : getVal counts d <;> simp [bumpVote, hh, getVal_dictInsert_ne _ _ h]

theorem getVal_voteCounts (ds : List String) (d : String) :
    getVal (voteCounts ds) d = if d ∈ ds then some (ds.count d) else none := by
  induction ds using List.reverseRecOn with
  | nil => simp [voteCounts, getVal]
  | append_singleton ds e ih =>
    rw [voteCounts_append]
    by_cases hd : d = e
    · subst hd
      rw [getVal_bumpVote_self, ih]
      by_cases hmem : d ∈ ds
      · simp [hmem, List.count_append]
      · simp [hmem, List.count_append, List.count_eq_zero_of_not_mem hmem]
    · rw [getVal_bumpVote_ne _ hd, ih]
      by_cases hmem : d ∈ ds <;>
        simp [hmem, hd, List.count_append, List.mem_append]

theorem nodupKeys_voteCounts (ds : List String) :
    ((voteCounts ds).map Prod.fst).Nodup := by
  induction ds using List.reverseRecOn with
  | nil => simp [voteCounts]
  | append_singleton ds d ih =>
    rw [voteCounts_append]
    cases h : getVal (voteCounts ds) d <;>
      simp only [bumpVote, h] <;>
      exact nodupKeys_dictInsert _ _ ih

theorem voteCounts_ne_nil {ds : List String} (h : ds ≠ []) :
    voteCounts ds ≠ [] := by
  obtain ⟨d, hd⟩ := List.exists_mem_of_ne_nil ds h
  have hg := getVal_voteCounts ds d
  rw [if_pos hd] at hg
  intro h0
  rw [h0] at hg
  simp [getVal] at hg

theorem voteCounts_val {ds : List String} {p : String × Nat}
    (h : p ∈ voteCounts ds) : p.1 ∈ ds ∧ p.2 = ds.count p.1 := by
  have hg : getVal (voteCounts ds) p.1 = some p.2 := by
    apply getVal_of_mem_nodupKeys (nodupKeys_voteCounts ds)
    cases p
    exact h
  rw [getVal_voteCounts] at hg
  by_cases hmem : p.1 ∈ ds
  · rw [if_pos hmem] at hg
    exact ⟨hmem, (Option.some.inj hg).symm⟩
  · rw [if_neg hmem] at hg
    cases hg

theorem mem_voteCounts_of_mem {ds : List String} {d : String} (h : d ∈ ds) :
    (d, ds.count d) ∈ voteCounts ds := by
  apply getVal_mem
  rw [getVal_voteCounts, if_pos h]

/-! ## Lemmas on Python `max(..., key=lambda x: x[1])` -/

theorem foldl_max_mem (xs : List (String × Nat)) (x : String × Nat) :
    xs.foldl (fun b y => if y.2 > b.2 then y else b) x ∈ x :: xs := by
  induction xs generalizing x with
  | nil => simp
  | cons y ys ih =>
    simp only [List.foldl_cons]
    have h := ih (if y.2 > x.2 then y else x)
    by_cases hc : y.2 > x.2 <;>
      simp only [hc, if_true, if_false, List.mem_cons] at h ⊢ <;>
      tauto

theorem foldl_max_ge (xs : List (String × Nat)) (x : String × Nat) :
    ∀ q ∈ x :: xs, q.2 ≤ (xs.foldl (fun b y => if y.2 > b.2 then y else b) x).2 := by
  induction xs generalizing x with
  | nil => simp
  | cons y ys ih =>
    intro q hq
    simp only [List.foldl_cons]
    have hhead : x.2 ≤ (if y.2 > x.2 then y else x).2 ∧
        y.2 ≤ (if y.2 > x.2 then y else x).2 := by
      by_cases hc : y.2 > x.2 <;> simp [hc] <;> omega
    rcases List.mem_cons.mp hq with h1 | h1
    · subst h1
      exact le_trans hhead.1 (ih _ _ (List.mem_cons_self _ _))
    rcases List.mem_cons.mp h1 with h2 | h2
    · subst h2
      exact le_trans hhead.2 (ih _ _ (List.mem_cons_self _ _))
    · exact ih _ _ (List.mem_cons_of_mem _ h2)

theorem length_filterMap_of_isSome {α β : Type} (f : α → Option β)
    (l : List α) (h : ∀ r ∈ l, (f r).isSome) :
    (l.filterMap f).length = l.length := by
  induction l with
  | nil => rfl
  | cons a as ih =>
    have ha := h a (List.mem_cons_self _ _)
    cases hfa : f a with
    | none => rw [hfa] at ha; simp at ha
    | some b =>
      simp [List.filterMap_cons, hfa,
        ih (fun r hr => h r (List.mem_cons_of_mem _ hr))]

end A2A

namespace A2A

theorem analyzeConsensus_eq {responses : List (String × Option String)}
    {x : String × Nat} {xs : List (String × Nat)}
    (hne : responses ≠ [])
    (hdne : responses.filterMap (fun r => r.2) ≠ [])
    (hvc : voteCounts (responses.filterMap (fun r => r.2)) = x :: xs) :
    analyzeConsensus responses =
      { consensus_achieved :=
          decide ((0.6 : ℚ) ≤
            ((xs.foldl (fun b y => if y.2 > b.2 then y else b) x).2 : ℚ) /
              ((responses.filterMap (fun r => r.2)).length : ℚ))
        agreement_score :=
          ((xs.foldl (fun b y => if y.2 > b.2 then y else b) x).2 : ℚ) /
            ((responses.filterMap (fun r => r.2)).length : ℚ)
        final_decision :=
          some (xs.foldl (fun b y => if y.2 > b.2 then y else b) x).1
        dissenting_agents :=
          (responses.filter (fun r =>
            r.2 ≠ some (xs.foldl (fun b y => if y.2 > b.2 then y else b) x).1)).map
            (fun r => r.1) } := by
  have h1 : responses.isEmpty = false := by
    cases responses
    · exact absurd rfl hne
    · rfl
  have h2 : (responses.filterMap (fun r => r.2)).isEmpty = false := by
    cases hh : responses.filterMap (fun r => r.2)
    · exact absurd hh hdne
    · rfl
  simp only [analyzeConsensus, h1, Bool.false_eq_true, if_false, h2, hvc, maxByCount]

/-- C1: for a consensus run over a non-empty response set in which every
response carries a `decision` field, `_analyze_consensus` returns a
`final_decision` whose vote count is maximal among the received
decisions, an `agreement_score` equal to the majority count divided by
the number of responses received, `consensus_achieved` iff that score is
at least 0.6, and `dissenting_agents` exactly the responders whose
decision differs from the final decision. -/
theorem analyzeConsensus_majority (responses : List (String × Option String))
    (hne : responses ≠ []) (hall : ∀ r ∈ responses, r.2.isSome) :
    ∃ d : String,
      (analyzeConsensus responses).final_decision = some d ∧
      d ∈ responses.filterMap (fun r => r.2) ∧
      (∀ d2 : String,
        (responses.filterMap (fun r => r.2)).count d2
          ≤ (responses.filterMap (fun r => r.2)).count d) ∧
      (analyzeConsensus responses).agreement_score =
        ((responses.filterMap (fun r => r.2)).count d : ℚ) /
          (responses.length : ℚ) ∧
      ((analyzeConsensus responses).consensus_achieved = true ↔
        (0.6 : ℚ) ≤ (analyzeConsensus responses).agreement_score) ∧
      (analyzeConsensus responses).dissenting_agents =
        (responses.filter (fun r => r.2 ≠ some d)).map (fun r => r.1) := by
  have hlen : (responses.filterMap (fun r => r.2)).length = responses.length :=
    length_filterMap_of_isSome _ _ hall
  have hdne : responses.filterMap (fun r => r.2) ≠ [] := by
    intro h0
    apply hne
    rw [h0] at hlen
    exact (List.length_eq_zero.mp hlen.symm)
  cases hvc : voteCounts (responses.filterMap (fun r => r.2)) with
  | nil => exact absurd hvc (voteCounts_ne_nil hdne)
  | cons x xs =>
    have heq := analyzeConsensus_eq hne hdne hvc
    have hmem : xs.foldl (fun b y => if y.2 > b.2 then y else b) x ∈
        voteCounts (responses.filterMap (fun r => r.2)) := by
      rw [hvc]; exact foldl_max_mem xs x
    have hge : ∀ q ∈ voteCounts (responses.filterMap (fun r => r.2)),
        q.2 ≤ (xs.foldl (fun b y => if y.2 > b.2 then y else b) x).2 := by
      rw [hvc]; exact foldl_max_ge xs x
    have hval := voteCounts_val hmem
    refine ⟨(xs.foldl (fun b y => if y.2 > b.2 then y else b) x).1,
      by rw [heq], hval.1, ?_, ?_, ?_, by rw [heq]⟩
    · intro d2
      by_cases hmem2 : d2 ∈ responses.filterMap (fun r => r.2)
      · have h3 := hge _ (mem_voteCounts_of_mem hmem2)
        rw [← hval.2]
        exact h3
      · rw [List.count_eq_zero_of_not_mem hmem2]
        exact Nat.zero_le _
    · rw [heq, ← hval.2, hlen]
    · rw [heq]
      simp

/-- C1 witness: the spec's concrete instance. Three responses
`"buy"`, `"buy"`, `"sell"` give `final_decision="buy"`,
`agreement_score = 2/3 ≈ 0.667`, consensus achieved, and only the
`"sell"` responder dissenting; the general theorem applies to it. -/
theorem analyzeConsensus_majority_witness :
    analyzeConsensus [("a1", some "buy"), ("a2", some "buy"), ("a3", some "sell")] =
      { consensus_achieved := true, agreement_score := 2/3
        final_decision := some "buy", dissenting_agents := ["a3"] } ∧
    (∃ d : String,
      (analyzeConsensus
        [("a1", some "buy"), ("a2", some "buy"), ("a3", some "sell")]).final_decision
          = some d ∧
      d ∈ [("a1", some "buy"), ("a2", some "buy"),
        ("a3", some "sell")].filterMap (fun r => r.2) ∧
      (∀ d2 : String,
        ([("a1", some "buy"), ("a2", some "buy"),
          ("a3", some "sell")].filterMap (fun r => r.2)).count d2
          ≤ ([("a1", some "buy"), ("a2", some "buy"),
            ("a3", some "sell")].filterMap (fun r => r.2)).count d) ∧
      (analyzeConsensus
        [("a1", some "buy"), ("a2", some "buy"), ("a3", some "sell")]).agreement_score =
        (([("a1", some "buy"), ("a2", some "buy"),
          ("a3", some "sell")].filterMap (fun r => r.2)).count d : ℚ) /
          (([("a1", some "buy"), ("a2", some "buy"),
            ("a3", some "sell")] : List (String × Option String)).length : ℚ) ∧
      ((analyzeConsensus
        [("a1", some "buy"), ("a2", some "buy"), ("a3", some "sell")]).consensus_achieved
          = true ↔
        (0.6 : ℚ) ≤ (analyzeConsensus
          [("a1", some "buy"), ("a2", some "buy"), ("a3", some "sell")]).agreement_score) ∧
      (analyzeConsensus
        [("a1", some "buy"), ("a2", some "buy"), ("a3", some "sell")]).dissenting_agents =
        ([("a1", some "buy"), ("a2", some "buy"),
          ("a3", some "sell")].filter (fun r => r.2 ≠ some d)).map (fun r => r.1)) := by
  constructor
  · simp [analyzeConsensus, voteCounts, bumpVote, getVal, dictInsert, maxByCount]
    norm_num
  · exact analyzeConsensus_majority _ (by simp) (by decide)

/-- C4 counterexample: with zero responses received (and a non-empty
participant list, here `["agent1"]`), `_analyze_consensus` does report
`consensus_achieved=false`, `agreement_score=0`, `final_decision=None`,
but its `dissenting_agents` is the empty list, not the participant
list as the claim states. -/
theorem analyzeConsensus_empty_dissenting_counterexample :
    (analyzeConsensus []).consensus_achieved = false ∧
    (analyzeConsensus []).agreement_score = 0 ∧
    (analyzeConsensus []).final_decision = none ∧
    (analyzeConsensus []).dissenting_agents = [] ∧
    (analyzeConsensus []).dissenting_agents ≠ ["agent1"] := by
  refine ⟨rfl, rfl, rfl, rfl, ?_⟩
  simp [analyzeConsensus]

/-- C4 amended: a consensus run receiving zero responses yields
`consensus_achieved=false`, `agreement_score=0.0`,
`final_decision=None` and an empty `dissenting_agents` list (no
participant is reported as dissenting). -/
theorem analyzeConsensus_empty_responses :
    analyzeConsensus [] =
      { consensus_achieved := false, agreement_score := 0
        final_decision := none, dissenting_agents := [] } := rfl

end A2A

namespace A2A

theorem mem_distinctKeys {l : List String} {c : String} :
    c ∈ distinctKeys l ↔ c ∈ l := by
  induction l with
  | nil => simp [distinctKeys]
  | cons a cs ih =>
    by_cases hc : c = a
    · subst hc
      simp [distinctKeys]
    · simp [distinctKeys, hc, ih]

theorem getVal_map_key {β : Type} (ks : List String) (f : String → β)
    {c : String} (h : c ∈ ks) :
    getVal (ks.map (fun k => (k, f k))) c = some (f c) := by
  induction ks with
  | nil => simp at h
  | cons k ks ih =>
    by_cases hk : k = c
    · subst hk
      simp [getVal]
    · rcases List.mem_cons.mp h with h1 | h1
      · exact absurd h1.symm hk
      · simp only [List.map_cons, getVal, if_neg hk]
        exact ih h1

/-- C2 amended: for a non-empty review set, each criterion's aggregated
score is the sum over ALL reviewers of `scores.get(criterion, 0.0)`
divided by the number of reviewers — a reviewer missing the criterion
contributes `0.0` to the numerator and still counts in the
denominator — and `overall_score` is the mean of the per-criterion
scores. (With 2 reviewers scoring a single criterion 0.8 and 0.6 this
still gives 0.7, see the witness.) -/
theorem aggregatePeerReviews_counts_missing_as_zero
    (reviews : List (String × List (String × ℚ))) (criteria : List String)
    (hne : reviews ≠ []) :
    (∀ c ∈ criteria,
      getVal (aggregatePeerReviews reviews criteria).criteria_scores c =
        some ((reviews.map (fun r => getScore r.2 c)).sum / (reviews.length : ℚ))) ∧
    (aggregatePeerReviews reviews criteria).overall_score =
      ((aggregatePeerReviews reviews criteria).criteria_scores.map (fun p => p.2)).sum /
        ((aggregatePeerReviews reviews criteria).criteria_scores.length : ℚ) := by
  have h1 : reviews.isEmpty = false := by
    cases reviews
    · exact absurd rfl hne
    · rfl
  constructor
  · intro c hc
    simp only [aggregatePeerReviews, h1, Bool.false_eq_true, if_false]
    exact getVal_map_key _ _ (mem_distinctKeys.mpr hc)
  · simp only [aggregatePeerReviews, h1, Bool.false_eq_true, if_false]
    cases hcs : (distinctKeys criteria).map (fun c =>
        (c, (reviews.map (fun r => getScore r.2 c)).sum / (reviews.length : ℚ))) with
    | nil => simp [hcs]
    | cons p ps => simp [hcs]

/-- C2 counterexample: with reviewers `r1` (scoring criterion `"acc"`
at 0.8) and `r2` (supplying no score for it), the code averages
`(0.8 + 0.0) / 2 = 0.4`, while the claim's averaging over suppliers
only would give `0.8`; the two aggregations differ on this input. -/
theorem aggregatePeerReviews_spec_counterexample :
    aggregatePeerReviews [("r1", [("acc", 4/5)]), ("r2", [])] ["acc"] ≠
      aggregatePeerReviewsSpec [("r1", [("acc", 4/5)]), ("r2", [])] ["acc"] := by
  have h1 : (aggregatePeerReviews [("r1", [("acc", 4/5)]), ("r2", [])]
      ["acc"]).overall_score = 2/5 := by
    norm_num [aggregatePeerReviews, distinctKeys, getScore, getVal]
  have h2 : (aggregatePeerReviewsSpec [("r1", [("acc", 4/5)]), ("r2", [])]
      ["acc"]).overall_score = 4/5 := by
    norm_num [aggregatePeerReviewsSpec, distinctKeys, getVal, List.filterMap_cons]
  intro h
  rw [h, h2] at h1
  norm_num at h1

/-- C2 witness: two reviewers scoring the single criterion `"q"` at 0.8
and 0.6 give a criterion average of 0.7 and `overall_score = 0.7`, and
the amended theorem applies to this input. -/
theorem aggregatePeerReviews_witness :
    (aggregatePeerReviews [("r1", [("q", 4/5)]), ("r2", [("q", 3/5)])]
      ["q"]).overall_score = 7/10 ∧
    getVal (aggregatePeerReviews [("r1", [("q", 4/5)]), ("r2", [("q", 3/5)])]
      ["q"]).criteria_scores "q" = some (7/10) ∧
    ((∀ c ∈ ["q"],
      getVal (aggregatePeerReviews [("r1", [("q", 4/5)]), ("r2", [("q", 3/5)])]
        ["q"]).criteria_scores c =
        some (([("r1", [("q", 4/5)]), ("r2", [("q", 3/5)])].map
          (fun r => getScore r.2 c)).sum /
          (([("r1", [("q", 4/5)]), ("r2", [("q", 3/5)])] :
            List (String × List (String × ℚ))).length : ℚ))) ∧
    (aggregatePeerReviews [("r1", [("q", 4/5)]), ("r2", [("q", 3/5)])]
      ["q"]).overall_score =
      ((aggregatePeerReviews [("r1", [("q", 4/5)]), ("r2", [("q", 3/5)])]
        ["q"]).criteria_scores.map (fun p => p.2)).sum /
        ((aggregatePeerReviews [("r1", [("q", 4/5)]), ("r2", [("q", 3/5)])]
          ["q"]).criteria_scores.length : ℚ)) := by
  refine ⟨?_, ?_, ?_⟩
  · norm_num [aggregatePeerReviews, distinctKeys, getScore, getVal]
  · norm_num [aggregatePeerReviews, distinctKeys, getScore, getVal]
  · exact aggregatePeerReviews_counts_missing_as_zero _ _ (by simp)

end A2A

namespace A2A

theorem foldl_best_mem (xs : List AgentProfile) (x : AgentProfile) :
    xs.foldl (fun b a => if scoreAgent a > scoreAgent b then a else b) x ∈ x :: xs := by
  induction xs generalizing x with
  | nil => simp
  | cons y ys ih =>
    simp only [List.foldl_cons]
    have h := ih (if scoreAgent y > scoreAgent x then y else x)
    by_cases hc : scoreAgent y > scoreAgent x <;>
      simp only [hc, if_true, if_false, List.mem_cons] at h ⊢ <;>
      tauto

theorem foldl_best_ge (xs : List AgentProfile) (x : AgentProfile) :
    ∀ q ∈ x :: xs, scoreAgent q ≤
      scoreAgent (xs.foldl (fun b a => if scoreAgent a > scoreAgent b then a else b) x) := by
  induction xs generalizing x with
  | nil => simp
  | cons y ys ih =>
    intro q hq
    simp only [List.foldl_cons]
    have hhead : scoreAgent x ≤ scoreAgent (if scoreAgent y > scoreAgent x then y else x) ∧
        scoreAgent y ≤ scoreAgent (if scoreAgent y > scoreAgent x then y else x) := by
      by_cases hc : scoreAgent y > scoreAgent x <;> simp [hc] <;> linarith
    rcases List.mem_cons.mp hq with h1 | h1
    · subst h1
      exact le_trans hhead.1 (ih _ _ (List.mem_cons_self _ _))
    rcases List.mem_cons.mp h1 with h2 | h2
    · subst h2
      exact le_trans hhead.2 (ih _ _ (List.mem_cons_self _ _))
    · exact ih _ _ (List.mem_cons_of_mem _ h2)

/-- C7 amended: `get_best_agent_for_capability` returns `None` exactly
when no candidate holds the capability; on a non-empty candidate list it
returns a candidate maximizing `score_agent`, where a non-active
candidate scores 0.0 and an active one scores
`0.4*reputation + 0.3*service_level + 0.3*max(0, 1 - load)` — so when no
candidate is active it still returns some candidate rather than
`None`. -/
theorem getBestAgent_max_score (candidates : List AgentProfile) :
    (candidates = [] → getBestAgentForCapability candidates = none) ∧
    (candidates ≠ [] → ∃ a : AgentProfile,
      getBestAgentForCapability candidates = some a ∧ a ∈ candidates ∧
      ∀ b ∈ candidates, scoreAgent b ≤ scoreAgent a) := by
  constructor
  · intro h
    subst h
    rfl
  · intro h
    cases candidates with
    | nil => exact absurd rfl h
    | cons x xs =>
      exact ⟨_, rfl, foldl_best_mem xs x, foldl_best_ge xs x⟩

/-- C7 counterexample: a capability whose only candidate is not
active. The claim says the result is `None`; the code returns that
candidate (Python `max` over all-zero scores picks the first). -/
theorem getBestAgent_inactive_counterexample :
    getBestAgentForCapability
      [{ agent_id := "a1", status := "offline", service_level := 1
         reputation_score := 1, load_factor := 0 }] =
      some { agent_id := "a1", status := "offline", service_level := 1
             reputation_score := 1, load_factor := 0 } ∧
    getBestAgentForCapability
      [{ agent_id := "a1", status := "offline", service_level := 1
         reputation_score := 1, load_factor := 0 }] ≠ none := by
  refine ⟨rfl, ?_⟩
  simp [getBestAgentForCapability]

/-- C7 witness: a two-candidate list (one offline, one active); the
amended theorem applies and returns a maximizing candidate. -/
theorem getBestAgent_witness :
    (([{ agent_id := "a1", status := "offline", service_level := 1
         reputation_score := 1, load_factor := 0 },
       { agent_id := "a2", status := "active", service_level := 1/2
         reputation_score := 1/2, load_factor := 0 }] : List AgentProfile) ≠ []) ∧
    (∃ a : AgentProfile,
      getBestAgentForCapability
        [{ agent_id := "a1", status := "offline", service_level := 1
           reputation_score := 1, load_factor := 0 },
         { agent_id := "a2", status := "active", service_level := 1/2
           reputation_score := 1/2, load_factor := 0 }] = some a ∧
      a ∈ [{ agent_id := "a1", status := "offline", service_level := 1
             reputation_score := 1, load_factor := 0 },
           { agent_id := "a2", status := "active", service_level := 1/2
             reputation_score := 1/2, load_factor := 0 }] ∧
      ∀ b ∈ [{ agent_id := "a1", status := "offline", service_level := 1
               reputation_score := 1, load_factor := 0 },
             { agent_id := "a2", status := "active", service_level := 1/2
               reputation_score := 1/2, load_factor := 0 }],
        scoreAgent b ≤ scoreAgent a) := by
  exact ⟨by simp, (getBestAgent_max_score _).2 (by simp)⟩

end A2A

namespace A2A

theorem handleResponseTimeout_absent {mid : String} {p : List (String × Bool)}
    (h : getVal p mid = none) : handleResponseTimeout mid p = p := by
  simp [handleResponseTimeout, h]

/-- C8 amended: a message routed with `requires_response=True` gets a
pending-response slot only when its `response_timeout` is also truthy
(a non-zero `some`); with `response_timeout` of `None` or `0` no slot is
created. A created slot persists until the timeout handler removes it
(there is no code path resolving a slot with a response); the removal
happens at most once — running the timeout handler again for the same
id finds no slot and does nothing, without error. -/
theorem pendingResponse_slot_lifecycle (msg : TrackedMessage)
    (pending : List (String × Bool))
    (h : getVal pending msg.message_id = none) :
    (∀ n : Nat, msg.requires_response = true → msg.response_timeout = some n →
      n ≠ 0 → getVal (routeTrack msg pending) msg.message_id = some false) ∧
    (msg.requires_response = false ∨ msg.response_timeout = none ∨
        msg.response_timeout = some 0 →
      routeTrack msg pending = pending) ∧
    getVal (handleResponseTimeout msg.message_id (routeTrack msg pending))
      msg.message_id = none ∧
    handleResponseTimeout msg.message_id
        (handleResponseTimeout msg.message_id (routeTrack msg pending)) =
      handleResponseTimeout msg.message_id (routeTrack msg pending) := by
  have hcases : routeTrack msg pending = pending ∨
      routeTrack msg pending = pending ++ [(msg.message_id, false)] := by
    by_cases hr : msg.requires_response
    · cases ht : msg.response_timeout with
      | none => simp [routeTrack, hr, trackPendingResponse, ht]
      | some n =>
        by_cases hn : n = 0
        · simp [routeTrack, hr, trackPendingResponse, ht, hn]
        · refine Or.inr ?_
          simp only [routeTrack, hr, if_true, trackPendingResponse, ht, hn,
            ne_eq, not_false_eq_true]
          exact dictInsert_of_absent _ h
    · simp [routeTrack, hr]
  have hg : getVal (pending ++ [(msg.message_id, false)]) msg.message_id =
      some false := by
    rw [← dictInsert_of_absent false h]
    exact getVal_dictInsert_self _ _ _
  have hafter : getVal (handleResponseTimeout msg.message_id (routeTrack msg pending))
      msg.message_id = none := by
    rcases hcases with hc | hc
    · rw [hc, handleResponseTimeout_absent h]
      exact h
    · rw [hc, handleResponseTimeout, hg]
      simp only [Option.isSome_some, if_true]
      rw [dictRemove_append_of_absent _ h]
      exact h
  refine ⟨?_, ?_, hafter, handleResponseTimeout_absent hafter⟩
  · intro n hr ht hn
    simp only [routeTrack, hr, if_true, trackPendingResponse, ht, hn, ne_eq,
      not_false_eq_true]
    exact getVal_dictInsert_self _ _ _
  · intro hcase
    rcases hcase with h1 | h1 | h1
    · simp [routeTrack, h1]
    · simp [routeTrack, trackPendingResponse, h1]
    · simp [routeTrack, trackPendingResponse, h1]

/-- C8 counterexample: a message with `requires_response=True` but no
`response_timeout` is routed without any pending-response slot being
created (`_track_pending_response` guards on the truthiness of
`response_timeout`), contradicting the claimed invariant that every
`requires_response=True` message has exactly one slot from the moment
of routing. -/
theorem pendingResponse_no_slot_counterexample :
    (TrackedMessage.mk "m1" true none).requires_response = true ∧
    routeTrack (TrackedMessage.mk "m1" true none) [] = [] := ⟨rfl, rfl⟩

/-- C8 witness: a message with `requires_response=True` and a 30-second
timeout gets a slot on routing, and the slot is gone after the timeout
handler runs. -/
theorem pendingResponse_slot_lifecycle_witness :
    getVal (routeTrack (TrackedMessage.mk "m1" true (some 30)) []) "m1" =
      some false ∧
    getVal (handleResponseTimeout "m1"
      (routeTrack (TrackedMessage.mk "m1" true (some 30)) [])) "m1" = none :=
  ⟨(pendingResponse_slot_lifecycle (TrackedMessage.mk "m1" true (some 30)) []
      rfl).1 30 rfl rfl (by decide),
   (pendingResponse_slot_lifecycle (TrackedMessage.mk "m1" true (some 30)) []
      rfl).2.2.1⟩

end A2A

namespace Router

theorem recordFailure_fields (now : Nat) (cb : CircuitBreaker) :
    (recordFailure now cb).failure_count = cb.failure_count + 1 ∧
    (recordFailure now cb).threshold = cb.threshold ∧
    (recordFailure now cb).timeout = cb.timeout ∧
    (recordFailure now cb).last_failure = some now ∧
    (recordFailure now cb).state =
      if cb.threshold ≤ cb.failure_count + 1 then "open" else cb.state :=
  ⟨rfl, rfl, rfl, rfl, rfl⟩

theorem applyFailures_basic (times : List Nat) (cb : CircuitBreaker) :
    (times.foldl (fun c u => recordFailure u c) cb).failure_count =
      cb.failure_count + times.length ∧
    (times.foldl (fun c u => recordFailure u c) cb).threshold = cb.threshold ∧
    (times.foldl (fun c u => recordFailure u c) cb).timeout = cb.timeout := by
  induction times generalizing cb with
  | nil => simp
  | cons t ts ih =>
    simp only [List.foldl_cons]
    have h := ih (recordFailure t cb)
    refine ⟨?_, ?_, ?_⟩
    · rw [h.1, (recordFailure_fields t cb).1]
      simp only [List.length_cons]
      omega
    · rw [h.2.1, (recordFailure_fields t cb).2.1]
    · rw [h.2.2, (recordFailure_fields t cb).2.2.1]

theorem applyFailures_last (times : List Nat) (t : Nat) (cb : CircuitBreaker) :
    ((times ++ [t]).foldl (fun c u => recordFailure u c) cb).last_failure = some t := by
  rw [List.foldl_append, List.foldl_cons, List.foldl_nil]
  exact (recordFailure_fields _ _).2.2.2.1

theorem applyFailures_open (times : List Nat) (t : Nat) (cb : CircuitBreaker)
    (h : cb.threshold ≤ cb.failure_count + times.length + 1) :
    ((times ++ [t]).foldl (fun c u => recordFailure u c) cb).state = "open" := by
  rw [List.foldl_append, List.foldl_cons, List.foldl_nil]
  have hb := applyFailures_basic times cb
  rw [(recordFailure_fields _ _).2.2.2.2, hb.1, hb.2.1, if_pos (by omega)]

/-- C3 amended: after `threshold` consecutive failures (the last at
time `T`) a breaker is open with `failure_count = threshold`;
`can_execute()` returns false at every moment up to and INCLUDING
`cooldown` seconds after `T` (the code compares with strict `>` on the
whole elapsed seconds), and the first call strictly after `cooldown`
whole seconds (within the first day — `timedelta.seconds` wraps every
86400 s) returns true and moves the state to half-open. In half-open
state `can_execute()` returns true without mutation, a
`record_failure()` re-opens the breaker, and a `record_success()`
resets `failure_count` to 0 and the state to closed. -/
theorem circuitBreaker_cooldown (th to2 : Nat) (ts : List Nat) (T : Nat)
    (hlen : ts.length + 1 = th) (hto : to2 < 86400) :
    ((ts ++ [T]).foldl (fun c u => recordFailure u c)
        (mkCircuitBreaker th to2)).state = "open" ∧
    ((ts ++ [T]).foldl (fun c u => recordFailure u c)
        (mkCircuitBreaker th to2)).failure_count = th ∧
    ((ts ++ [T]).foldl (fun c u => recordFailure u c)
        (mkCircuitBreaker th to2)).last_failure = some T ∧
    (∀ now : Nat, now - T ≤ to2 →
      canExecute now ((ts ++ [T]).foldl (fun c u => recordFailure u c)
        (mkCircuitBreaker th to2)) =
      (false, (ts ++ [T]).foldl (fun c u => recordFailure u c)
        (mkCircuitBreaker th to2))) ∧
    (∀ now : Nat, to2 < now - T → now - T < 86400 →
      canExecute now ((ts ++ [T]).foldl (fun c u => recordFailure u c)
        (mkCircuitBreaker th to2)) =
      (true, { ((ts ++ [T]).foldl (fun c u => recordFailure u c)
        (mkCircuitBreaker th to2)) with state := "half-open" })) ∧
    (∀ (now : Nat) (cbh : CircuitBreaker), cbh.state = "half-open" →
      canExecute now cbh = (true, cbh)) ∧
    (∀ now : Nat,
      (recordFailure now { ((ts ++ [T]).foldl (fun c u => recordFailure u c)
        (mkCircuitBreaker th to2)) with state := "half-open" }).state = "open") ∧
    (∀ cbh : CircuitBreaker, (recordSuccess cbh).failure_count = 0 ∧
      (recordSuccess cbh).state = "closed") := by
  have hbasic := applyFailures_basic (ts ++ [T]) (mkCircuitBreaker th to2)
  have hfc : ((ts ++ [T]).foldl (fun c u => recordFailure u c)
      (mkCircuitBreaker th to2)).failure_count = th := by
    rw [hbasic.1]
    simp only [mkCircuitBreaker, List.length_append, List.length_cons,
      List.length_nil]
    omega
  have hth : ((ts ++ [T]).foldl (fun c u => recordFailure u c)
      (mkCircuitBreaker th to2)).threshold = th := hbasic.2.1
  have htimeout : ((ts ++ [T]).foldl (fun c u => recordFailure u c)
      (mkCircuitBreaker th to2)).timeout = to2 := hbasic.2.2
  have hstate : ((ts ++ [T]).foldl (fun c u => recordFailure u c)
      (mkCircuitBreaker th to2)).state = "open" := by
    apply applyFailures_open
    simp only [mkCircuitBreaker]
    omega
  have hlast := applyFailures_last ts T (mkCircuitBreaker th to2)
  have hopen : ∀ now : Nat,
      canExecute now ((ts ++ [T]).foldl (fun c u => recordFailure u c)
        (mkCircuitBreaker th to2)) =
      if (now - T) % 86400 > to2 then
        (true, { ((ts ++ [T]).foldl (fun c u => recordFailure u c)
          (mkCircuitBreaker th to2)) with state := "half-open" })
      else (false, (ts ++ [T]).foldl (fun c u => recordFailure u c)
        (mkCircuitBreaker th to2)) := by
    intro now
    rw [canExecute, if_neg (by rw [hstate]; decide), if_pos (by rw [hstate])]
    rw [hlast]
    simp only [htimeout]
    rw [hlast]
  refine ⟨hstate, hfc, hlast, ?_, ?_, ?_, ?_, ?_⟩
  · intro now hnow
    rw [hopen now, if_neg]
    rw [Nat.mod_eq_of_lt (by omega)]
    omega
  · intro now h1 h2
    rw [hopen now, if_pos]
    rw [Nat.mod_eq_of_lt h2]
    omega
  · intro now cbh hcbh
    rw [canExecute, if_neg (by rw [hcbh]; decide), if_neg (by rw [hcbh]; decide)]
  · intro now
    have hrw : (recordFailure now { ((ts ++ [T]).foldl (fun c u => recordFailure u c)
        (mkCircuitBreaker th to2)) with state := "half-open" }).state =
        if ((ts ++ [T]).foldl (fun c u => recordFailure u c)
            (mkCircuitBreaker th to2)).threshold ≤
          ((ts ++ [T]).foldl (fun c u => recordFailure u c)
            (mkCircuitBreaker th to2)).failure_count + 1 then "open"
        else "half-open" := rfl
    rw [hrw, hth, hfc, if_pos (by omega)]
  · intro cbh
    exact ⟨rfl, rfl⟩

end Router

namespace Router

/-- C3 counterexample: a breaker with `threshold=1`, `cooldown=60`
that failed at time 0 is open, and at time 60 — exactly `cooldown`
seconds after the failure, the moment at which the claim says the first
call returns true — `can_execute()` still returns false and leaves the
breaker open. -/
theorem circuitBreaker_boundary_counterexample :
    (recordFailure 0 (mkCircuitBreaker 1 60)).state = "open" ∧
    (recordFailure 0 (mkCircuitBreaker 1 60)).last_failure = some 0 ∧
    canExecute 60 (recordFailure 0 (mkCircuitBreaker 1 60)) =
      (false, recordFailure 0 (mkCircuitBreaker 1 60)) := by
  refine ⟨rfl, rfl, ?_⟩
  rfl

/-- C3 witness: the amended theorem at `threshold=1`, `cooldown=60`,
failure at time 0: `can_execute()` is false at 60 and first true at
61, moving to half-open. -/
theorem circuitBreaker_cooldown_witness :
    canExecute 60 (([] ++ [0]).foldl (fun c u => recordFailure u c)
      (mkCircuitBreaker 1 60)) =
      (false, ([] ++ [0]).foldl (fun c u => recordFailure u c)
        (mkCircuitBreaker 1 60)) ∧
    canExecute 61 (([] ++ [0]).foldl (fun c u => recordFailure u c)
      (mkCircuitBreaker 1 60)) =
      (true, { (([] ++ [0]).foldl (fun c u => recordFailure u c)
        (mkCircuitBreaker 1 60)) with state := "half-open" }) :=
  ⟨(circuitBreaker_cooldown 1 60 [] 0 rfl (by decide)).2.2.2.1 60 (by decide),
   (circuitBreaker_cooldown 1 60 [] 0 rfl (by decide)).2.2.2.2.1 61 (by decide) (by decide)⟩

end Router

theorem getVal_dictModify {α β : Type} [DecidableEq α] (k : α) (f : β → β)
    (l : List (α × β)) : getVal (dictModify k f l) k = (getVal l k).map f := by
  induction l with
  | nil => simp [dictModify, getVal]
  | cons p ps ih =>
    by_cases hp : p.1 = k
    · simp [dictModify, hp, getVal]
    · simp [dictModify, hp, getVal, ih]

namespace Router

theorem getListD_dlistAppend_self {α : Type} [DecidableEq α] (k : α) (x : String)
    (l : List (α × List String)) :
    getListD (dlistAppend k x l) k = getListD l k ++ [x] := by
  simp [dlistAppend, getListD, getVal_dictInsert_self]

theorem getListD_dlistAppend_ne {α : Type} [DecidableEq α] {k k2 : α} (x : String)
    (l : List (α × List String)) (h : k2 ≠ k) :
    getListD (dlistAppend k x l) k2 = getListD l k2 := by
  simp [dlistAppend, getListD, getVal_dictInsert_ne _ _ h]

theorem getListD_dictModify_self {α : Type} [DecidableEq α] (k : α)
    (f : List String → List String) (l : List (α × List String))
    (hf : f [] = []) :
    getListD (dictModify k f l) k = f (getListD l k) := by
  rw [getListD, getVal_dictModify]
  cases h : getVal l k with
  | none => simp [getListD, h, hf]
  | some v => simp [getListD, h]

theorem getListD_dictModify_ne {α : Type} [DecidableEq α] {k k2 : α}
    (f : List String → List String) (l : List (α × List String)) (h : k2 ≠ k) :
    getListD (dictModify k f l) k2 = getListD l k2 := by
  rw [getListD, getVal_dictModify_ne _ _ h, getListD]

theorem getListD_capFold (caps : List String) (aid : String)
    (idx : List (String × List String)) (c : String) (hnd : caps.Nodup) :
    getListD (caps.foldl (fun idx2 c2 => dlistAppend c2 aid idx2) idx) c =
      getListD idx c ++ (if c ∈ caps then [aid] else []) := by
  induction caps generalizing idx with
  | nil => simp
  | cons c0 cs ih =>
    simp only [List.foldl_cons]
    have hnd2 := List.nodup_cons.mp hnd
    rw [ih _ hnd2.2]
    by_cases hc : c = c0
    · subst hc
      rw [getListD_dlistAppend_self]
      simp [hnd2.1]
    · rw [getListD_dlistAppend_ne _ _ hc]
      by_cases hm : c ∈ cs <;> simp [hm, hc]

theorem eraseFold_removes (caps : List String) (aid : String)
    (idx : List (String × List String))
    (h : ∀ c, aid ∈ getListD idx c → c ∈ caps ∧ (getListD idx c).count aid = 1) :
    ∀ c, aid ∉ getListD (caps.foldl (fun idx2 c2 =>
      if aid ∈ getListD idx2 c2 then dictModify c2 (fun l => l.erase aid) idx2
      else idx2) idx) c := by
  induction caps generalizing idx with
  | nil =>
    intro c hc
    exact absurd (h c hc).1 (List.not_mem_nil _)
  | cons c0 cs ih =>
    simp only [List.foldl_cons]
    by_cases hm : aid ∈ getListD idx c0
    · rw [if_pos hm]
      apply ih
      intro c2 hc2
      by_cases he : c2 = c0
      · subst he
        rw [getListD_dictModify_self _ _ _ (by simp)] at hc2
        have hcount := (h c2 hm).2
        have hzero : ((getListD idx c2).erase aid).count aid = 0 := by
          rw [List.count_erase_self, hcount]
        have hpos := List.count_pos_iff.mpr hc2
        omega
      · rw [getListD_dictModify_ne _ _ he] at hc2 ⊢
        have h2 := h c2 hc2
        refine ⟨?_, h2.2⟩
        rcases List.mem_cons.mp h2.1 with h3 | h3
        · exact absurd h3 he
        · exact h3
    · rw [if_neg hm]
      apply ih
      intro c2 hc2
      have h2 := h c2 hc2
      have he : c2 ≠ c0 := by
        intro hh
        rw [hh] at hc2
        exact hm hc2
      refine ⟨?_, h2.2⟩
      rcases List.mem_cons.mp h2.1 with h3 | h3
      · exact absurd h3 he
      · exact h3

end Router

namespace Router

/-- C5 amended: registering an id that is not yet anywhere in the
registry stores its profile; registering it AGAIN overwrites the stored
profile but appends the id a second time to the per-type list and to
every capability list (`defaultdict(list).append` — registration is not
idempotent on the indices). Unregistering after a single registration
removes the id from the agents map, the type index and every capability
index entry. -/
theorem registerAgent_duplicates_unregister_clean (st0 : RouterState) (a : AgentInstance)
    (h1 : getVal st0.agents a.agent_id = none)
    (h2 : ∀ k, a.agent_id ∉ getListD st0.agent_types k)
    (h3 : ∀ k, a.agent_id ∉ getListD st0.capabilities_index k)
    (h4 : a.capabilities.Nodup) :
    getVal (registerAgent st0 a).agents a.agent_id = some a ∧
    getVal (registerAgent (registerAgent st0 a) a).agents a.agent_id = some a ∧
    (getListD (registerAgent st0 a).agent_types a.agent_type).count a.agent_id = 1 ∧
    (getListD (registerAgent (registerAgent st0 a) a).agent_types
      a.agent_type).count a.agent_id = 2 ∧
    (∀ c ∈ a.capabilities,
      (getListD (registerAgent (registerAgent st0 a) a).capabilities_index c).count
        a.agent_id = 2) ∧
    (∃ st2 : RouterState,
      unregisterAgent (registerAgent st0 a) a.agent_id = some st2 ∧
      getVal st2.agents a.agent_id = none ∧
      (∀ k, a.agent_id ∉ getListD st2.agent_types k) ∧
      (∀ k, a.agent_id ∉ getListD st2.capabilities_index k)) := by
  have hreg1agents : (registerAgent st0 a).agents = dictInsert a.agent_id a st0.agents := rfl
  have hreg1types : (registerAgent st0 a).agent_types =
      dlistAppend a.agent_type a.agent_id st0.agent_types := rfl
  have hreg1caps : (registerAgent st0 a).capabilities_index =
      a.capabilities.foldl (fun idx c => dlistAppend c a.agent_id idx)
        st0.capabilities_index := rfl
  have htype1 : getListD (registerAgent st0 a).agent_types a.agent_type =
      getListD st0.agent_types a.agent_type ++ [a.agent_id] := by
    rw [hreg1types, getListD_dlistAppend_self]
  have htype1count : (getListD (registerAgent st0 a).agent_types a.agent_type).count
      a.agent_id = 1 := by
    rw [htype1, List.count_append,
      List.count_eq_zero_of_not_mem (h2 a.agent_type)]
    simp
  have hcap1 : ∀ c, getListD (registerAgent st0 a).capabilities_index c =
      getListD st0.capabilities_index c ++
        (if c ∈ a.capabilities then [a.agent_id] else []) := by
    intro c
    rw [hreg1caps, getListD_capFold _ _ _ _ h4]
  refine ⟨getVal_dictInsert_self _ _ _, getVal_dictInsert_self _ _ _,
    htype1count, ?_, ?_, ?_⟩
  · have : getListD (registerAgent (registerAgent st0 a) a).agent_types
        a.agent_type =
        getListD (registerAgent st0 a).agent_types a.agent_type ++ [a.agent_id] :=
      getListD_dlistAppend_self _ _ _
    rw [this, List.count_append, htype1count]
    simp
  · intro c hc
    have hstep : getListD (registerAgent (registerAgent st0 a) a).capabilities_index c =
        getListD (registerAgent st0 a).capabilities_index c ++
          (if c ∈ a.capabilities then [a.agent_id] else []) :=
      getListD_capFold _ _ _ _ h4
    rw [hstep, hcap1 c, if_pos hc, List.count_append, List.count_append,
      List.count_eq_zero_of_not_mem (h3 c)]
    simp
  · have hmem : a.agent_id ∈ getListD (registerAgent st0 a).agent_types a.agent_type := by
      rw [htype1]
      simp
    have hv : getVal (registerAgent st0 a).agents a.agent_id = some a := by
      rw [hreg1agents]
      exact getVal_dictInsert_self _ _ _
    rw [unregisterAgent]
    simp only [hv]
    rw [if_pos hmem]
    refine ⟨_, rfl, ?_, ?_, ?_⟩
    · show getVal (dictRemove (registerAgent st0 a).agents a.agent_id) a.agent_id = none
      rw [hreg1agents, dictInsert_of_absent _ h1, dictRemove_append_of_absent _ h1]
      exact h1
    · intro k
      show a.agent_id ∉ getListD
        (dictModify a.agent_type (fun l => l.erase a.agent_id)
          (registerAgent st0 a).agent_types) k
      by_cases hk : k = a.agent_type
      · subst hk
        rw [getListD_dictModify_self _ _ _ (by simp), htype1]
        intro hmem2
        have := List.count_pos_iff.mpr hmem2
        rw [List.count_erase_self, List.count_append,
          List.count_eq_zero_of_not_mem (h2 a.agent_type)] at this
        simp at this
      · rw [getListD_dictModify_ne _ _ hk, hreg1types,
          getListD_dlistAppend_ne _ _ hk]
        exact h2 k
    · apply eraseFold_removes
      intro c hcmem
      rw [hcap1 c] at hcmem ⊢
      rcases List.mem_append.mp hcmem with hin | hin
      · exact absurd hin (h3 c)
      · by_cases hc : c ∈ a.capabilities
        · rw [if_pos hc] at hin ⊢
          refine ⟨hc, ?_⟩
          rw [List.count_append, List.count_eq_zero_of_not_mem (h3 c)]
          simp
        · rw [if_neg hc] at hin
          simp at hin

end Router

namespace Router

/-- C5 counterexample: registering the same agent (`"a1"`, type `"T"`)
twice leaves `"a1"` twice in the type index, refuting idempotence; and
unregistering it afterwards removes only the first occurrence, leaving
an orphan `"a1"` entry in the type index, refuting the no-orphan
property. -/
theorem registerAgent_duplicate_counterexample :
    getListD (registerAgent (registerAgent emptyRouterState
      (AgentInstance.mk "a1" "T" ["c1"] AgentStatus.healthy none 0 0))
      (AgentInstance.mk "a1" "T" ["c1"] AgentStatus.healthy none 0 0)).agent_types
      "T" = ["a1", "a1"] ∧
    (unregisterAgent (registerAgent (registerAgent emptyRouterState
      (AgentInstance.mk "a1" "T" ["c1"] AgentStatus.healthy none 0 0))
      (AgentInstance.mk "a1" "T" ["c1"] AgentStatus.healthy none 0 0)) "a1").map
      (fun s => getListD s.agent_types "T") = some ["a1"] := by
  constructor
  · rfl
  · rfl

/-- C5 witness: the amended theorem applied to a fresh registry and a
concrete agent. -/
theorem registerAgent_duplicates_witness :
    getVal (registerAgent emptyRouterState
      (AgentInstance.mk "a1" "T" ["c1"] AgentStatus.healthy none 0 0)).agents "a1" =
      some (AgentInstance.mk "a1" "T" ["c1"] AgentStatus.healthy none 0 0) ∧
    (getListD (registerAgent (registerAgent emptyRouterState
      (AgentInstance.mk "a1" "T" ["c1"] AgentStatus.healthy none 0 0))
      (AgentInstance.mk "a1" "T" ["c1"] AgentStatus.healthy none 0 0)).agent_types
      "T").count "a1" = 2 ∧
    (∃ st2 : RouterState,
      unregisterAgent (registerAgent emptyRouterState
        (AgentInstance.mk "a1" "T" ["c1"] AgentStatus.healthy none 0 0)) "a1" =
        some st2 ∧
      getVal st2.agents "a1" = none ∧
      (∀ k, "a1" ∉ getListD st2.agent_types k) ∧
      (∀ k, "a1" ∉ getListD st2.capabilities_index k)) := by
  have h := registerAgent_duplicates_unregister_clean emptyRouterState
    (AgentInstance.mk "a1" "T" ["c1"] AgentStatus.healthy none 0 0)
    rfl (fun k => by simp [emptyRouterState, getListD, getVal])
    (fun k => by simp [emptyRouterState, getListD, getVal])
    (by simp)
  exact ⟨h.1, h.2.2.2.1, h.2.2.2.2.2⟩

end Router

theorem map_getD_range {α : Type} (l : List α) (d : α) :
    (List.range l.length).map (fun i => l.getD i d) = l := by
  apply List.ext_getElem
  · simp
  · intro i h1 h2
    simp only [List.getElem_map, List.getElem_range]
    rw [List.getD_eq_getElem]

namespace Router

theorem selectAgent_rr (agents : List String) (hne : agents ≠ [])
    (counters : List (List String × Nat)) :
    selectAgent (fun _ => 0) agents RoutingStrategy.round_robin counters [] =
      some (agents.getD (((getVal counters agents).getD 0 + 1) % agents.length) "",
        dictInsert agents (((getVal counters agents).getD 0 + 1) % agents.length)
          counters) := by
  cases agents with
  | nil => exact absurd rfl hne
  | cons x xs => rfl

theorem rrSelections_formula (agents : List String) (hne : agents ≠ [])
    (counters : List (List String × Nat)) (n : Nat) :
    (rrSelections agents counters n).1 =
      (List.range n).map (fun i =>
        agents.getD (((getVal counters agents).getD 0 + 1 + i) % agents.length) "") := by
  induction n generalizing counters with
  | zero => simp [rrSelections]
  | succ n ih =>
    rw [rrSelections, selectAgent_rr agents hne counters]
    simp only
    rw [ih (dictInsert agents (((getVal counters agents).getD 0 + 1) % agents.length)
      counters)]
    rw [getVal_dictInsert_self]
    rw [List.range_succ_eq_map]
    simp only [List.map_cons, List.map_map, Function.comp, Option.getD_some,
      List.cons.injEq]
    constructor
    · simp
    · apply List.map_congr_left
      intro i hi
      have harith : ((getVal counters agents).getD 0 + 1) % agents.length + 1 + i =
          ((getVal counters agents).getD 0 + 1) % agents.length + (1 + i) := by omega
      have hidx : (((getVal counters agents).getD 0 + 1) % agents.length + 1 + i) %
          agents.length =
          ((getVal counters agents).getD 0 + 1 + i.succ) % agents.length := by
        rw [harith, Nat.mod_add_mod]
        have h2 : (getVal counters agents).getD 0 + 1 + (1 + i) =
            (getVal counters agents).getD 0 + 1 + i.succ := by omega
        rw [h2]
      rw [hidx]
      rfl

theorem range_map_mod_rotate (N c : Nat) :
    (List.range N).map (fun i => (c + i) % N) = (List.range N).rotate (c % N) := by
  apply List.ext_getElem
  · simp
  · intro i h1 h2
    simp only [List.getElem_map, List.getElem_range]
    rw [List.getElem_rotate]
    simp only [List.length_range, List.getElem_range]
    have hi : i < N := by simpa using h1
    rw [Nat.add_mod c i N, Nat.mod_eq_of_lt hi]
    have hm : c % N % N = c % N := by simp
    rw [Nat.add_mod i (c % N) N, Nat.mod_eq_of_lt hi, hm, Nat.add_comm]

end Router

namespace Router

/-- C6: over a fixed non-empty, duplicate-free candidate list of size
N, N consecutive round-robin selections (with no intervening topology
change and no other selection touching the same candidate-set cursor)
form a permutation of the candidate list, so each of the N candidates
is returned exactly once. -/
theorem roundRobin_visits_each_once (agents : List String) (counters : List (List String × Nat))
    (hne : agents ≠ []) (hnd : agents.Nodup) :
    (rrSelections agents counters agents.length).1.Perm agents ∧
    ∀ a ∈ agents, (rrSelections agents counters agents.length).1.count a = 1 := by
  have hperm : (rrSelections agents counters agents.length).1.Perm agents := by
    rw [rrSelections_formula agents hne counters]
    have hmm : (List.range agents.length).map (fun i =>
        agents.getD (((getVal counters agents).getD 0 + 1 + i) % agents.length) "") =
        ((List.range agents.length).map (fun i =>
          ((getVal counters agents).getD 0 + 1 + i) % agents.length)).map
          (fun j => agents.getD j "") := by
      rw [List.map_map]
      rfl
    rw [hmm, range_map_mod_rotate agents.length ((getVal counters agents).getD 0 + 1)]
    have h2 : (List.range agents.length).map (fun j => agents.getD j "") = agents :=
      map_getD_range agents ""
    refine ((List.rotate_perm _ _).map _).trans ?_
    rw [h2]
  refine ⟨hperm, ?_⟩
  intro a ha
  rw [hperm.count_eq]
  exact List.count_eq_one_of_mem hnd ha

end Router

namespace Router

/-- C6 witness: three candidates, three selections starting from a
fresh cursor: the selections are ["a2", "a3", "a1"], a permutation of
the candidates visiting each exactly once. -/
theorem roundRobin_visits_each_once_witness :
    (rrSelections ["a1", "a2", "a3"] [] 3).1 = ["a2", "a3", "a1"] ∧
    (rrSelections ["a1", "a2", "a3"] [] 3).1.Perm ["a1", "a2", "a3"] ∧
    (∀ a ∈ ["a1", "a2", "a3"], (rrSelections ["a1", "a2", "a3"] [] 3).1.count a = 1) := by
  refine ⟨rfl, ?_, ?_⟩
  · exact (roundRobin_visits_each_once ["a1", "a2", "a3"] [] (by simp) (by simp)).1
  · exact (roundRobin_visits_each_once ["a1", "a2", "a3"] [] (by simp) (by simp)).2

end Router

namespace Router

theorem isStaleOffline_iff (now : Nat) (a : AgentInstance) :
    isStaleOffline now a = true ↔
      a.status = AgentStatus.offline ∧
        ∃ t, a.last_heartbeat = some t ∧ 300 < now - t := by
  rw [isStaleOffline]
  cases h : a.last_heartbeat with
  | none => simp [h]
  | some t => simp [h]

/-- C9 amended: for an agent with a heartbeat, the periodic health
sweep leaves the status unchanged while the elapsed time since
`last_heartbeat` is at most 30 seconds, sets it to degraded when it
exceeds 30 but is at most 60, and to offline when it exceeds 60; the
periodic cleanup selects for eviction exactly the agents that are
offline AND whose last heartbeat lies more than 5 minutes in the past —
that is, about 4 minutes after the health sweep marked them offline,
not 5 minutes after they went offline. -/
theorem healthMonitor_cleanup :
    (∀ (now : Nat) (a : AgentInstance) (t : Nat), a.last_heartbeat = some t →
      (now - t ≤ 30 → healthUpdateAgent now a = a) ∧
      (30 < now - t → now - t ≤ 60 →
        (healthUpdateAgent now a).status = AgentStatus.degraded) ∧
      (60 < now - t → (healthUpdateAgent now a).status = AgentStatus.offline)) ∧
    (∀ (now : Nat) (st : RouterState) (aid : String),
      aid ∈ offlineAgents now st ↔ ∃ a : AgentInstance, (aid, a) ∈ st.agents ∧
        a.status = AgentStatus.offline ∧
        ∃ t, a.last_heartbeat = some t ∧ 300 < now - t) := by
  constructor
  · intro now a t ht
    simp only [healthUpdateAgent, ht]
    refine ⟨?_, ?_, ?_⟩
    · intro h1
      rw [if_neg (by omega), if_neg (by omega)]
    · intro h1 h2
      rw [if_neg (by omega), if_pos (by omega)]
    · intro h1
      rw [if_pos (by omega)]
  · intro now st aid
    simp only [offlineAgents, List.mem_map, List.mem_filter]
    constructor
    · rintro ⟨p, ⟨hp, hstale⟩, rfl⟩
      have hs := (isStaleOffline_iff now p.2).mp hstale
      exact ⟨p.2, by rwa [Prod.mk.eta], hs.1, hs.2⟩
    · rintro ⟨a, ha, hs, t, ht, hgt⟩
      exact ⟨(aid, a), ⟨ha, (isStaleOffline_iff now a).mpr ⟨hs, t, ht, hgt⟩⟩, rfl⟩

/-- C9 counterexample: (a) at exactly 30 elapsed seconds the health
sweep leaves the agent unchanged (healthy), while the claim's
"between 30 and 60" band says degraded; (b) an agent whose last
heartbeat was 302 seconds ago is marked offline by the sweep and
already evicted by the cleanup at that same time — more than 5 minutes
after the heartbeat but far less than the claimed
"5 minutes after going offline" (361 seconds). -/
theorem healthMonitor_counterexample :
    healthUpdateAgent 30
      (AgentInstance.mk "a1" "T" [] AgentStatus.healthy (some 0) 0 0) =
      AgentInstance.mk "a1" "T" [] AgentStatus.healthy (some 0) 0 0 ∧
    (cleanupStep 302 (healthMonitorStep 302 (registerAgent emptyRouterState
      (AgentInstance.mk "a1" "T" [] AgentStatus.healthy (some 0) 0 0)))).map
      (fun s => getVal s.agents "a1") = some none := by
  constructor
  · rfl
  · rfl

/-- C9 witness: the amended theorem at concrete inputs: unchanged at
29 s, degraded at 31 s, offline at 302 s, and the 302-second agent is
selected for eviction by the cleanup sweep. -/
theorem healthMonitor_cleanup_witness :
    healthUpdateAgent 29
      (AgentInstance.mk "a1" "T" [] AgentStatus.healthy (some 0) 0 0) =
      AgentInstance.mk "a1" "T" [] AgentStatus.healthy (some 0) 0 0 ∧
    (healthUpdateAgent 31
      (AgentInstance.mk "a1" "T" [] AgentStatus.healthy (some 0) 0 0)).status =
      AgentStatus.degraded ∧
    (healthUpdateAgent 302
      (AgentInstance.mk "a1" "T" [] AgentStatus.healthy (some 0) 0 0)).status =
      AgentStatus.offline ∧
    "a1" ∈ offlineAgents 302 (healthMonitorStep 302 (registerAgent emptyRouterState
      (AgentInstance.mk "a1" "T" [] AgentStatus.healthy (some 0) 0 0))) := by
  refine ⟨?_, ?_, ?_, ?_⟩
  · exact (healthMonitor_cleanup.1 29 _ 0 rfl).1 (by omega)
  · exact (healthMonitor_cleanup.1 31 _ 0 rfl).2.1 (by omega) (by omega)
  · exact (healthMonitor_cleanup.1 302 _ 0 rfl).2.2 (by omega)
  · apply (healthMonitor_cleanup.2 302 _ "a1").mpr
    refine ⟨AgentInstance.mk "a1" "T" [] AgentStatus.offline (some 0) 0 0, ?_, rfl,
      0, rfl, by omega⟩
    simp [healthMonitorStep, registerAgent, emptyRouterState, dictInsert,
      dlistAppend, getListD, getVal, healthUpdateAgent]

end Router

theorem foldl_choice {α : Type} (f : α → α → α)
    (hf : ∀ b y, f b y = b ∨ f b y = y) (x : α) (l : List α) :
    l.foldl f x ∈ x :: l := by
  induction l generalizing x with
  | nil => simp
  | cons y ys ih =>
    simp only [List.foldl_cons, List.mem_cons]
    have h := ih (f x y)
    rcases List.mem_cons.mp h with h1 | h1
    · rcases hf x y with h2 | h2
      · exact Or.inl (h1.trans h2)
      · exact Or.inr (Or.inl (h1.trans h2))
    · exact Or.inr (Or.inr h1)

theorem getD_mod_mem {α : Type} (l : List α) (h : l ≠ []) (i : Nat) (d : α) :
    l.getD (i % l.length) d ∈ l := by
  have hlen : 0 < l.length := List.length_pos.mpr h
  have hi : i % l.length < l.length := Nat.mod_lt _ hlen
  rw [List.getD_eq_getElem l d hi]
  exact List.getElem_mem hi

namespace Router

theorem selectAgent_nil (pick : List String → Nat) (strategy : RoutingStrategy)
    (counters : List (List String × Nat)) (m : List (String × AgentInstance)) :
    selectAgent pick [] strategy counters m = none := by
  cases strategy <;> rfl

theorem selectAgent_some (pick : List String → Nat) (agents : List String)
    (strategy : RoutingStrategy) (counters : List (List String × Nat))
    (m : List (String × AgentInstance)) (h : agents ≠ []) :
    ∃ sel counters2, selectAgent pick agents strategy counters m =
      some (sel, counters2) ∧ sel ∈ agents := by
  cases agents with
  | nil => exact absurd rfl h
  | cons x xs =>
    cases strategy with
    | least_loaded =>
      refine ⟨_, _, rfl, ?_⟩
      exact foldl_choice _ (fun b y => by
        by_cases hc : loadOf m y < loadOf m b <;> simp [hc]) x xs
    | random =>
      refine ⟨_, _, rfl, ?_⟩
      exact getD_mod_mem _ (by simp) _ _
    | round_robin =>
      refine ⟨_, _, rfl, ?_⟩
      exact getD_mod_mem _ (by simp) _ _
    | sticky_session =>
      refine ⟨_, _, rfl, ?_⟩
      exact getD_mod_mem _ (by simp) _ _
    | priority_based =>
      refine ⟨_, _, rfl, ?_⟩
      exact getD_mod_mem _ (by simp) _ _

theorem selectAgent_mem_of_eq {pick : List String → Nat} {agents : List String}
    {strategy : RoutingStrategy} {counters : List (List String × Nat)}
    {m : List (String × AgentInstance)} {sel : String}
    {counters2 : List (List String × Nat)}
    (h : selectAgent pick agents strategy counters m = some (sel, counters2)) :
    sel ∈ agents := by
  cases hag : agents with
  | nil =>
    rw [hag, selectAgent_nil] at h
    cases h
  | cons x xs =>
    obtain ⟨s2, c2, he, hm⟩ := selectAgent_some pick (x :: xs) strategy counters m
      (by simp)
    rw [hag] at h
    rw [he] at h
    have := Option.some.inj h
    rw [← hag]
    rw [hag]
    have hs : sel = s2 := by
      have h2 := congrArg Prod.fst this
      exact h2.symm
    rw [hs]
    exact hm

end Router

namespace Router

/-- C10: in `route_message`, when the first delivery attempt to the
selected healthy candidate succeeds, `record_success()` is applied to
that candidate's circuit breaker and the call returns true; when it
fails, `record_failure()` is applied to that breaker and, if at least
one other healthy candidate remains (duplicate-free candidate set with
more than one member), exactly one retry is made against a different
candidate chosen by the same strategy, the retry's outcome being the
returned boolean; with no other healthy candidate, the call returns
false. -/
theorem routeMessage_breaker_and_retry (pick : List String → Nat) (deliver : String → Bool) (now : Nat)
    (reqCap dType dId : Option String) (strategy : RoutingStrategy)
    (st : RouterState) (dests healthy : List String)
    (bks1 : List (String × CircuitBreaker)) (selected : String)
    (counters1 : List (List String × Nat)) (cb : CircuitBreaker)
    (hd : destinationAgents reqCap dType dId st = dests)
    (hdne : dests ≠ [])
    (hfh : filterHealthy now st.agents dests st.circuit_breakers = (some healthy, bks1))
    (hnd : healthy.Nodup)
    (hsel : selectAgent pick healthy strategy st.routing_counters st.agents =
      some (selected, counters1))
    (hcb : getVal bks1 selected = some cb) :
    (deliver selected = true →
      (routeMessage pick deliver now reqCap dType dId strategy st).1 = true ∧
      getVal (routeMessage pick deliver now reqCap dType dId strategy
        st).2.circuit_breakers selected = some (recordSuccess cb)) ∧
    (deliver selected = false → 1 < healthy.length →
      ∃ (alt : String) (counters2 : List (List String × Nat)),
        selectAgent pick (healthy.filter (fun x => x ≠ selected)) strategy
          counters1 st.agents = some (alt, counters2) ∧
        alt ∈ healthy ∧ alt ≠ selected ∧
        (routeMessage pick deliver now reqCap dType dId strategy st).1 =
          deliver alt ∧
        getVal (routeMessage pick deliver now reqCap dType dId strategy
          st).2.circuit_breakers selected = some (recordFailure now cb)) ∧
    (deliver selected = false → healthy.length ≤ 1 →
      (routeMessage pick deliver now reqCap dType dId strategy st).1 = false ∧
      getVal (routeMessage pick deliver now reqCap dType dId strategy
        st).2.circuit_breakers selected = some (recordFailure now cb)) := by
  have hhne : healthy ≠ [] := by
    intro h0
    rw [h0, selectAgent_nil] at hsel
    cases hsel
  have hde : dests.isEmpty = false := by
    cases dests
    · exact absurd rfl hdne
    · rfl
  have hhe : healthy.isEmpty = false := by
    cases healthy
    · exact absurd rfl hhne
    · rfl
  refine ⟨?_, ?_, ?_⟩
  · intro hdel
    simp only [routeMessage, hd, hde, Bool.false_eq_true, if_false, hfh, hhe,
      hsel, hdel, if_true]
    exact ⟨by trivial, getVal_dictModify_self _ hcb⟩
  · intro hdel hlen
    have hex : ∃ b ∈ healthy, b ≠ selected := by
      cases healthy with
      | nil => exact absurd rfl hhne
      | cons x xs =>
        cases xs with
        | nil => simp at hlen
        | cons y ys =>
          by_cases hx : x = selected
          · have hnd2 := List.nodup_cons.mp hnd
            have hxy : x ≠ y := by
              intro he
              exact hnd2.1 (he ▸ List.mem_cons_self y ys)
            refine ⟨y, by simp, ?_⟩
            rw [← hx]
            intro he
            exact hxy he.symm
          · exact ⟨x, by simp, hx⟩
    have halts : healthy.filter (fun x => x ≠ selected) ≠ [] := by
      obtain ⟨b, hb, hbne⟩ := hex
      intro h0
      have hmem : b ∈ healthy.filter (fun x => x ≠ selected) := by
        rw [List.mem_filter]
        exact ⟨hb, by simp [hbne]⟩
      rw [h0] at hmem
      cases hmem
    obtain ⟨alt, counters2, haltsel, haltmem⟩ :=
      selectAgent_some pick (healthy.filter (fun x => x ≠ selected)) strategy
        counters1 st.agents halts
    have haltprops := List.mem_filter.mp haltmem
    refine ⟨alt, counters2, haltsel, haltprops.1, by simpa using haltprops.2,
      ?_, ?_⟩
    · simp only [routeMessage, hd, hde, Bool.false_eq_true, if_false, hfh, hhe,
        hsel, hdel, if_true, if_pos hlen, haltsel]
      cases hda : deliver alt <;> simp [hda]
    · simp only [routeMessage, hd, hde, Bool.false_eq_true, if_false, hfh, hhe,
        hsel, hdel, if_true, if_pos hlen, haltsel]
      cases hda : deliver alt <;> simp [hda] <;>
        exact getVal_dictModify_self _ hcb
  · intro hdel hlen
    have hlen2 : ¬(healthy.length > 1) := by omega
    simp only [routeMessage, hd, hde, Bool.false_eq_true, if_false, hfh, hhe,
      hsel, hdel, if_true, if_neg hlen2]
    exact ⟨by trivial, getVal_dictModify_self _ hcb⟩

end Router

namespace Router

/-- C10 witness: two healthy registered agents of type "T", round
robin selects "a2", delivery succeeds: the call returns true and
"a2"'s breaker is record_success()-ed. -/
theorem routeMessage_breaker_and_retry_witness :
    (routeMessage (fun _ => 0) (fun _ => true) 0 none (some "T") none
      RoutingStrategy.round_robin
      (registerAgent (registerAgent emptyRouterState
        (AgentInstance.mk "a1" "T" [] AgentStatus.healthy (some 0) 0 0))
        (AgentInstance.mk "a2" "T" [] AgentStatus.healthy (some 0) 0 0))).1 = true ∧
    getVal (routeMessage (fun _ => 0) (fun _ => true) 0 none (some "T") none
      RoutingStrategy.round_robin
      (registerAgent (registerAgent emptyRouterState
        (AgentInstance.mk "a1" "T" [] AgentStatus.healthy (some 0) 0 0))
        (AgentInstance.mk "a2" "T" [] AgentStatus.healthy (some 0) 0 0))).2.circuit_breakers
      "a2" = some (recordSuccess (mkCircuitBreaker 5 60)) :=
  (routeMessage_breaker_and_retry (fun _ => 0) (fun _ => true) 0 none (some "T") none
      RoutingStrategy.round_robin
      (registerAgent (registerAgent emptyRouterState
        (AgentInstance.mk "a1" "T" [] AgentStatus.healthy (some 0) 0 0))
        (AgentInstance.mk "a2" "T" [] AgentStatus.healthy (some 0) 0 0))
      ["a1", "a2"] ["a1", "a2"]
      [("a1", mkCircuitBreaker 5 60), ("a2", mkCircuitBreaker 5 60)]
      "a2" [(["a1", "a2"], 1)] (mkCircuitBreaker 5 60)
      rfl (by simp) rfl (by simp) rfl rfl).1 rfl

end Router
